import Mathlib

/-!
# Verification of the SrimDB query evaluator core

Shallow embedding of the SrimDB in-memory relational query engine
(`src/value.rs`, `src/query.rs`, `src/function.rs`, `src/table.rs`,
`src/field.rs`, `src/lib.rs`) and proofs about its relational operators,
value coercion lattice and function-call resolution.

Machine integers are embedded as `Nat`/`Int` with the 128-bit bounds made
explicit where the Rust code depends on them (`u128::saturating_add`,
`as`-casts).  The `f64` payload of `Value::Real` is embedded as `F64`,
which keeps exactly the structure the engine observes: IEEE `==` is not
reflexive at NaN and is ordinary equality on the non-NaN values; the
numeric content of float arithmetic and of int→float rounding is
abstracted (no property below depends on it), only totality and equality
semantics are kept.
-/

namespace SrimDB

/-- `ValueKind` from `src/value.rs`: the tag of a `Value`. -/
inductive ValueKind where
  | boolean
  | unsigned
  | signed
  | real
  | text
  | blob
  deriving DecidableEq, Repr

namespace ValueKind

/-- `ValueKind::more_generic` from `src/value.rs`: the coercion-lattice
join of two kinds, `none` when the pair does not unify. -/
def more_generic (k : ValueKind) (other : ValueKind) : Option ValueKind :=
  if k = other then
    some k
  else
    match k with
    | unsigned =>
      match other with
      | signed => some signed
      | real => some real
      | _ => none
    | signed =>
      match other with
      | unsigned => some signed
      | real => some real
      | _ => none
    | real =>
      match other with
      | unsigned => some real
      | signed => some real
      | _ => none
    | _ => none

end ValueKind

/-- Embedding of Rust `f64` restricted to what the engine observes.
`nan` stands for any NaN bit pattern; `num` abstracts the non-NaN values
(finite and infinite), on which IEEE `==` is ordinary equality.  The
numeric value carried by `num` is an abstraction token: no claim below
depends on the result of float arithmetic, only on its totality and on
the equality semantics. -/
inductive F64 where
  | nan
  | num (v : Int)
  deriving DecidableEq, Repr

namespace F64

/-- IEEE 754 `==` on `f64` (Rust's derived `PartialEq` for the `Real`
variant): NaN compares unequal to everything, itself included. -/
def beq : F64 → F64 → Bool
  | nan, _ => false
  | _, nan => false
  | num a, num b => a = b

/-- Abstraction of `f64` addition (`f64::add`): total, NaN-absorbing. -/
def add : F64 → F64 → F64
  | nan, _ => nan
  | _, nan => nan
  | num a, num b => num (a + b)

/-- Abstraction of the Rust integer→`f64` `as`-cast: total. -/
def ofInt (v : Int) : F64 := num v

/-- Abstraction of the Rust `f64`→`i128` `as`-cast (saturating, NaN→0). -/
def toI128 : F64 → Int
  | nan => 0
  | num v => max (-(2 ^ 127)) (min v (2 ^ 127 - 1))

theorem f64_beq_symm (a b : F64) : beq a b = beq b a := by
  cases a <;> cases b <;> simp [beq, eq_comm]

theorem f64_beq_trans {a b c : F64} (h₁ : beq a b = true) (h₂ : beq b c = true) :
    beq a c = true := by
  cases a <;> cases b <;> cases c <;> simp_all [beq]

end F64

/-- `u128::MAX`. -/
def u128Max : Nat := 2 ^ 128 - 1

/-- `i128::MAX`. -/
def i128Max : Int := 2 ^ 127 - 1

/-- `i128::MIN`. -/
def i128Min : Int := -(2 ^ 127)

/-- `u128::saturating_add` (operands assumed in range). -/
def u128SaturatingAdd (a b : Nat) : Nat := min (a + b) u128Max

/-- `i128::saturating_add` (operands assumed in range). -/
def i128SaturatingAdd (a b : Int) : Int := max i128Min (min (a + b) i128Max)

/-- The Rust `u128 as i128` reinterpreting cast (operand in range). -/
def u128AsI128 (v : Nat) : Int :=
  if v ≤ (2 ^ 127 - 1 : Nat) then (v : Int) else (v : Int) - 2 ^ 128

/-- The Rust `i128 as u128` reinterpreting cast (operand in range). -/
def i128AsU128 (v : Int) : Nat :=
  (v % (2 ^ 128 : Int)).toNat

/-- `Value` from `src/value.rs`: the tagged scalar runtime datum.
`Unsigned(u128)` carries a `Nat` (in-range values are `≤ u128Max`),
`Signed(i128)` an `Int`, `Real(f64)` an `F64`, `Blob(Vec<u8>)` a byte
list. -/
inductive Value where
  | boolean (b : Bool)
  | unsigned (v : Nat)
  | signed (v : Int)
  | real (v : F64)
  | text (s : String)
  | blob (bytes : List Nat)
  deriving DecidableEq, Repr

namespace Value

/-- `Value::kind` from `src/value.rs`. -/
def kind : Value → ValueKind
  | boolean _ => ValueKind.boolean
  | unsigned _ => ValueKind.unsigned
  | signed _ => ValueKind.signed
  | real _ => ValueKind.real
  | text _ => ValueKind.text
  | blob _ => ValueKind.blob

/-- Rust's derived `PartialEq` for `Value`: same variant with equal
payloads, the `Real` payload compared by IEEE `==`. -/
def beq : Value → Value → Bool
  | boolean a, boolean b => a = b
  | unsigned a, unsigned b => a = b
  | signed a, signed b => a = b
  | real a, real b => F64.beq a b
  | text a, text b => a = b
  | blob a, blob b => a = b
  | _, _ => false

theorem value_beq_symm (a b : Value) : beq a b = beq b a := by
  cases a <;> cases b <;> simp [beq] <;> first
    | exact eq_comm
    | exact F64.f64_beq_symm _ _

theorem value_beq_trans {a b c : Value} (h₁ : beq a b = true) (h₂ : beq b c = true) :
    beq a c = true := by
  cases a <;> cases b <;> cases c <;> simp_all [beq]
  exact F64.f64_beq_trans h₁ h₂

end Value

/-- Type aliases from `src/lib.rs`. -/
abbrev TableName := String

abbrev FieldName := String

abbrev FunctionName := String

/-- `QueryField` from `src/query.rs`: optional table qualifier plus a
field name. -/
structure QueryField where
  table : Option TableName
  field : FieldName
  deriving DecidableEq, Repr

namespace QueryField

/-- `QueryField::new`: an unqualified reference. -/
def new (field : FieldName) : QueryField := ⟨none, field⟩

/-- `QueryField::from_table`: attach a table qualifier. -/
def from_table (qf : QueryField) (table : TableName) : QueryField :=
  { qf with table := some table }

end QueryField

/-- `TypeError` from `src/lib.rs`. -/
inductive TypeError where
  | notBoolean
  deriving DecidableEq, Repr

/-- `QueryError` from `src/lib.rs`. -/
inductive QueryError where
  | incompatibleTypes
  | differentFields
  | typeError (e : TypeError)
  | notEnoughArguments (n : Nat)
  | noSuchTable (t : TableName)
  | noSuchField (qf : QueryField)
  | ambiguousField (qf : QueryField)
  deriving DecidableEq, Repr

namespace Value

/-- `Value::cast_to` from `src/value.rs`: identity on the same kind,
reinterpreting casts between the integer kinds, numeric conversion to
`Real`; everything else fails with `IncompatibleTypes`. -/
def cast_to (v : Value) (tgt : ValueKind) : Except QueryError Value :=
  if v.kind = tgt then
    Except.ok v
  else
    match tgt with
    | ValueKind.boolean => Except.error QueryError.incompatibleTypes
    | ValueKind.unsigned =>
      match v with
      | signed x => Except.ok (unsigned (i128AsU128 x))
      | _ => Except.error QueryError.incompatibleTypes
    | ValueKind.signed =>
      match v with
      | unsigned x => Except.ok (signed (u128AsI128 x))
      | real x => Except.ok (signed (F64.toI128 x))
      | _ => Except.error QueryError.incompatibleTypes
    | ValueKind.real =>
      match v with
      | signed x => Except.ok (real (F64.ofInt x))
      | unsigned x => Except.ok (real (F64.ofInt x))
      | _ => Except.error QueryError.incompatibleTypes
    | _ => Except.error QueryError.incompatibleTypes

/-- The per-kind combination step of `Value::binop_add` (the `match
result_kind` arm): both operands already have kind `result_kind`. -/
def combine (result_kind : ValueKind) (c1 c2 : Value) : Value :=
  match result_kind with
  | ValueKind.boolean =>
    boolean ((match c1 with | boolean b => b | _ => false) ||
             (match c2 with | boolean b => b | _ => false))
  | ValueKind.unsigned =>
    unsigned (u128SaturatingAdd
      (match c1 with | unsigned b => b | _ => 0)
      (match c2 with | unsigned b => b | _ => 0))
  | ValueKind.signed =>
    signed (i128SaturatingAdd
      (match c1 with | signed b => b | _ => 0)
      (match c2 with | signed b => b | _ => 0))
  | ValueKind.real =>
    real (F64.add
      (match c1 with | real b => b | _ => F64.nan)
      (match c2 with | real b => b | _ => F64.nan))
  | ValueKind.text =>
    text ((match c1 with | text b => b | _ => "") ++
          (match c2 with | text b => b | _ => ""))
  | ValueKind.blob =>
    blob ((match c1 with | blob b => b | _ => []) ++
          (match c2 with | blob b => b | _ => []))

/-- `Value::binop_add` from `src/value.rs`: unify the kinds, cast both
operands to the unified kind, combine; `IncompatibleTypes` when the
kinds do not unify. -/
def binop_add (v : Value) (other : Value) : Except QueryError Value :=
  match (v.kind).more_generic other.kind with
  | some result_kind => do
    let c1 ← v.cast_to result_kind
    let c2 ← other.cast_to result_kind
    Except.ok (combine result_kind c1 c2)
  | none => Except.error QueryError.incompatibleTypes

end Value

/-- `Row` from `src/table.rs`: an ordered sequence of values. -/
abbrev Row := List Value

namespace Row

/-- Rust's derived `PartialEq` for `Row` (`Vec<Value>` equality):
same length, values compared pointwise by `Value` `==`. -/
def beq : Row → Row → Bool
  | [], [] => true
  | a :: as_, b :: bs => Value.beq a b && beq as_ bs
  | _, _ => false

/-- `Row::pick_columns` from `src/table.rs`.  Rust indexes with
`self.values[*i]`, which panics out of bounds; the callers only pass
in-bounds indices (guaranteed by the arity invariant), so the default
value of `getD` is never observed in the verified statements. -/
def pick_columns (row : Row) (columns : List Nat) : Row :=
  columns.map (fun i => row.getD i (Value.boolean false))

theorem row_beq_symm (a b : Row) : beq a b = beq b a := by
  induction a generalizing b with
  | nil => cases b <;> simp [beq]
  | cons x xs ih =>
    cases b with
    | nil => simp [beq]
    | cons y ys => simp [beq, ih ys, Value.value_beq_symm x y]

theorem row_beq_trans {a b c : Row} (h₁ : beq a b = true) (h₂ : beq b c = true) :
    beq a c = true := by
  induction a generalizing b c with
  | nil => cases b <;> cases c <;> simp_all [beq]
  | cons x xs ih =>
    cases b with
    | nil => simp_all [beq]
    | cons y ys =>
      cases c with
      | nil => simp_all [beq]
      | cons z zs =>
        simp only [beq, Bool.and_eq_true] at h₁ h₂ ⊢
        exact ⟨Value.value_beq_trans h₁.1 h₂.1, ih h₁.2 h₂.2⟩

end Row

/-- `Vec<Row>::contains(&row)` as used in `src/query.rs`: is some
element of `rows` value-equal (Rust `==`) to `r`. -/
def containsRow (rows : List Row) (r : Row) : Bool :=
  rows.any (fun x => Row.beq x r)

/-- `QueryResult` from `src/query.rs`: the output schema plus ordered
rows. -/
structure QueryResult where
  fields : List QueryField
  rows : List Row
  deriving DecidableEq, Repr

namespace QueryResult

/-- `QueryResult::field_names`. -/
def field_names (r : QueryResult) : List FieldName :=
  r.fields.map (fun f => f.field)

/-- `QueryResult::union` from `src/query.rs`. -/
def union (r : QueryResult) (other : QueryResult) :
    Except QueryError QueryResult :=
  if r.field_names ≠ other.field_names then
    Except.error QueryError.differentFields
  else
    Except.ok ⟨r.fields, r.rows ++ other.rows⟩

/-- `QueryResult::intersection` from `src/query.rs`: the filtering loop
keeps each row of `r` contained (by `==`) in `other`'s rows. -/
def intersection (r : QueryResult) (other : QueryResult) :
    Except QueryError QueryResult :=
  if r.field_names ≠ other.field_names then
    Except.error QueryError.differentFields
  else
    Except.ok ⟨r.fields, r.rows.filter (fun row => containsRow other.rows row)⟩

/-- `QueryResult::difference` from `src/query.rs`: keeps each row of `r`
not contained (by `==`) in `other`'s rows. -/
def difference (r : QueryResult) (other : QueryResult) :
    Except QueryError QueryResult :=
  if r.field_names ≠ other.field_names then
    Except.error QueryError.differentFields
  else
    Except.ok ⟨r.fields, r.rows.filter (fun row => !containsRow other.rows row)⟩

/-- The accumulator loop of `QueryResult::distinct`: push each row not
already contained (by `==`) in the output built so far. -/
def distinctLoop : List Row → List Row → List Row
  | acc, [] => acc
  | acc, row :: rest =>
    if containsRow acc row then distinctLoop acc rest
    else distinctLoop (acc ++ [row]) rest

/-- `QueryResult::distinct` from `src/query.rs`. -/
def distinct (r : QueryResult) : Except QueryError QueryResult :=
  Except.ok ⟨r.fields, distinctLoop [] r.rows⟩

/-- The enumerating loop of `QueryResult::match_field`, carrying the
current column index. -/
def matchFieldLoop (qf : QueryField) : List QueryField → Nat → List Nat
  | [], _ => []
  | f :: rest, i =>
    if f.field = qf.field ∧ (qf.table = none ∨ f.table = qf.table) then
      i :: matchFieldLoop qf rest (i + 1)
    else
      matchFieldLoop qf rest (i + 1)

/-- `QueryResult::match_field` from `src/query.rs`: all column indices
whose field matches the reference. -/
def match_field (r : QueryResult) (qf : QueryField) : List Nat :=
  matchFieldLoop qf r.fields 0

/-- The resolution loop of `QueryResult::project`: accumulate the
requested fields and their unique matching column indices, failing on
the first requested field with zero or several matches. -/
def projectLoop (r : QueryResult) :
    List QueryField → List QueryField → List Nat →
    Except QueryError (List QueryField × List Nat)
  | [], accFields, accCols => Except.ok (accFields, accCols)
  | f :: rest, accFields, accCols =>
    let matching := r.match_field f
    if matching.isEmpty then
      Except.error (QueryError.noSuchField f)
    else if matching.length > 1 then
      Except.error (QueryError.ambiguousField f)
    else
      projectLoop r rest (accFields ++ [f]) (accCols ++ [matching.headD 0])

/-- `QueryResult::project` from `src/query.rs`. -/
def project (r : QueryResult) (fields : List QueryField) :
    Except QueryError QueryResult := do
  let (resultFields, resultColumns) ← projectLoop r fields [] []
  Except.ok ⟨resultFields, r.rows.map (fun row => row.pick_columns resultColumns)⟩

/-- `QueryResult::rename` from `src/query.rs`: resolve `from`, replace
that schema entry by an unqualified field named `tgt`, rows unchanged. -/
def rename (r : QueryResult) (from_ : QueryField) (tgt : FieldName) :
    Except QueryError QueryResult :=
  let matching := r.match_field from_
  if matching.isEmpty then
    Except.error (QueryError.noSuchField from_)
  else if matching.length > 1 then
    Except.error (QueryError.ambiguousField from_)
  else
    Except.ok ⟨r.fields.set (matching.headD 0) (QueryField.new tgt), r.rows⟩

end QueryResult

/-- Outcome of running engine code whose Rust counterpart may panic:
`ok` and `err` are the two sides of Rust's `Result`, `panicked` records
a process abort (`panic!` / `unimplemented!()` / `.expect`), which in
Rust bypasses the `Result` channel entirely. -/
inductive Outcome (α : Type) where
  | ok (a : α)
  | err (e : QueryError)
  | panicked (msg : String)
  deriving DecidableEq, Repr

namespace Outcome

/-- Rust's `?` on a `Result` inside a panic-capable context. -/
def bind : Outcome α → (α → Outcome β) → Outcome β
  | ok a, f => f a
  | err e, _ => err e
  | panicked m, _ => panicked m

instance : Monad Outcome where
  pure := ok
  bind := bind

/-- Lift a plain `Result` computation. -/
def ofExcept : Except QueryError α → Outcome α
  | Except.ok a => ok a
  | Except.error e => err e

/-- Map over a successful outcome. -/
def map (f : α → β) : Outcome α → Outcome β
  | ok a => ok (f a)
  | err e => err e
  | panicked m => panicked m

end Outcome

instance {ε α : Type} [DecidableEq ε] [DecidableEq α] : DecidableEq (Except ε α) :=
  fun x y =>
    match x, y with
    | Except.ok a, Except.ok b =>
      if h : a = b then isTrue (by rw [h]) else isFalse (fun hc => h (by cases hc; rfl))
    | Except.error a, Except.error b =>
      if h : a = b then isTrue (by rw [h]) else isFalse (fun hc => h (by cases hc; rfl))
    | Except.ok _, Except.error _ => isFalse (fun hc => by cases hc)
    | Except.error _, Except.ok _ => isFalse (fun hc => by cases hc)

mutual

/-- `Argument` from `src/function.rs`. -/
inductive Argument where
  | functionCall (fc : FunctionCall)
  | value (v : Value)
  | queryField (qf : QueryField)

/-- `FunctionCall` from `src/function.rs`: a target name plus ordered
arguments. -/
inductive FunctionCall where
  | mk (target : FunctionName) (arguments : List Argument)

end

namespace FunctionCall

def target : FunctionCall → FunctionName
  | mk t _ => t

def arguments : FunctionCall → List Argument
  | mk _ args => args

end FunctionCall

mutual

/-- One step of `FunctionCall::resolve_args` on a single argument:
values pass through, nested calls recurse, field references are
replaced by the resolver's value. -/
def Argument.resolve (res : QueryField → Outcome Value) :
    Argument → Outcome Argument
  | .functionCall fc =>
    match FunctionCall.resolve_args res fc with
    | .ok fc' => .ok (.functionCall fc')
    | .err e => .err e
    | .panicked m => .panicked m
  | .value v => .ok (.value v)
  | .queryField qf =>
    match res qf with
    | .ok v => .ok (.value v)
    | .err e => .err e
    | .panicked m => .panicked m

/-- The argument loop of `FunctionCall::resolve_args`. -/
def Argument.resolveList (res : QueryField → Outcome Value) :
    List Argument → Outcome (List Argument)
  | [] => .ok []
  | a :: rest =>
    match Argument.resolve res a with
    | .ok a' =>
      match Argument.resolveList res rest with
      | .ok rest' => .ok (a' :: rest')
      | .err e => .err e
      | .panicked m => .panicked m
    | .err e => .err e
    | .panicked m => .panicked m

/-- `FunctionCall::resolve_args` from `src/function.rs`. -/
def FunctionCall.resolve_args (res : QueryField → Outcome Value) :
    FunctionCall → Outcome FunctionCall
  | .mk tgt args =>
    match Argument.resolveList res args with
    | .ok args' => .ok (.mk tgt args')
    | .err e => .err e
    | .panicked m => .panicked m

end

/-- `Function` from `src/function.rs`: a native host function or an
(unimplemented) composed function. -/
inductive Function where
  | native (f : List Value → Except QueryError Value)
  | composed (fc : FunctionCall)

/-- `Function::call` from `src/function.rs`: dispatch to the native
implementation; calling a `Composed` function hits `unimplemented!()`
and aborts. -/
def Function.call : Function → List Value → Outcome Value
  | Function.native nf, args => Outcome.ofExcept (nf args)
  | Function.composed _, _ => Outcome.panicked "not implemented"

/-- The function registry handed to one evaluation
(`HashMap<FunctionName, Function>` lookup). -/
abbrev FunctionDict := FunctionName → Option Function

mutual

/-- `FunctionCall::apply` from `src/function.rs`: evaluate the
arguments left to right (a remaining `QueryField` argument aborts), then
look up the target (a missing function aborts via `.expect`) and call
it. -/
def FunctionCall.apply (dict : FunctionDict) : FunctionCall → Outcome Value
  | .mk tgt args =>
    match Argument.applyList dict args with
    | .ok vals =>
      match dict tgt with
      | some f => f.call vals
      | none => .panicked ("No function named " ++ tgt)
    | .err e => .err e
    | .panicked m => .panicked m

/-- The argument-evaluation loop of `FunctionCall::apply`. -/
def Argument.applyList (dict : FunctionDict) :
    List Argument → Outcome (List Value)
  | [] => .ok []
  | .value v :: rest =>
    match Argument.applyList dict rest with
    | .ok vals => .ok (v :: vals)
    | .err e => .err e
    | .panicked m => .panicked m
  | .functionCall fc :: rest =>
    match FunctionCall.apply dict fc with
    | .ok v =>
      match Argument.applyList dict rest with
      | .ok vals => .ok (v :: vals)
      | .err e => .err e
      | .panicked m => .panicked m
    | .err e => .err e
    | .panicked m => .panicked m
  | .queryField _ :: _ => .panicked "Applying with unresolved query fields"

end

/-- `f_strict_eq` from `src/builtin_functions.rs`: true on fewer than
two arguments, otherwise true iff every later argument `==` the first. -/
def f_strict_eq (values : List Value) : Except QueryError Value :=
  if values.length < 2 then
    Except.ok (Value.boolean true)
  else
    let reference := values.headD (Value.boolean false)
    Except.ok (Value.boolean ((values.drop 1).all (fun v => Value.beq v reference)))

/-- `f_add` from `src/builtin_functions.rs`: left fold of `binop_add`
over a nonempty argument list. -/
def f_add (values : List Value) : Except QueryError Value :=
  if values.length < 1 then
    Except.error (QueryError.notEnoughArguments 1)
  else
    (values.drop 1).foldlM
      (fun acc v => acc.binop_add v)
      (values.headD (Value.boolean false))

/-- The fixed built-in registry (`builtin_functions::FUNCTIONS`, as
installed by `DataDB::new`). -/
def builtinFunctionDict : FunctionDict := fun n =>
  if n = "strict_eq" then some (Function.native f_strict_eq)
  else if n = "add" then some (Function.native f_add)
  else none

/-- `Condition` from `src/query.rs`. -/
inductive Condition where
  | value (v : Value)
  | queryField (qf : QueryField)
  | functionCall (fc : FunctionCall)

/-- The `Condition::Value` base case of `Condition::test`: a boolean
literal is itself, any other value kind is `TypeError::NotBoolean`. -/
def testValue : Value → Outcome Bool
  | Value.boolean b => Outcome.ok b
  | _ => Outcome.err (QueryError.typeError TypeError.notBoolean)

/-- `Condition::test` from `src/query.rs`. -/
def Condition.test (dict : FunctionDict)
    (resolve : QueryField → Outcome Value) : Condition → Outcome Bool
  | Condition.value v => testValue v
  | Condition.queryField qf =>
    match resolve qf with
    | .ok v => testValue v
    | .err e => .err e
    | .panicked m => .panicked m
  | Condition.functionCall fc =>
    match fc.resolve_args resolve with
    | .ok fc' =>
      match fc'.apply dict with
      | .ok v => testValue v
      | .err e => .err e
      | .panicked m => .panicked m
    | .err e => .err e
    | .panicked m => .panicked m

namespace QueryResult

/-- The per-row field resolver used by `QueryResult::filter`: unique
match or `NoSuchField`/`AmbiguousField`; the row is then indexed at the
matched column (in bounds under the arity invariant). -/
def rowResolver (r : QueryResult) (row : Row) : QueryField → Outcome Value :=
  fun qf =>
    let matching := r.match_field qf
    if matching.isEmpty then
      Outcome.err (QueryError.noSuchField qf)
    else if matching.length > 1 then
      Outcome.err (QueryError.ambiguousField qf)
    else
      Outcome.ok (row.getD (matching.headD 0) (Value.boolean false))

/-- The row loop of `QueryResult::filter`. -/
def filterLoop (r : QueryResult) (dict : FunctionDict) (condition : Condition) :
    List Row → Outcome (List Row)
  | [] => Outcome.ok []
  | row :: rest =>
    match condition.test dict (rowResolver r row) with
    | .ok true =>
      match filterLoop r dict condition rest with
      | .ok rows => .ok (row :: rows)
      | .err e => .err e
      | .panicked m => .panicked m
    | .ok false => filterLoop r dict condition rest
    | .err e => .err e
    | .panicked m => .panicked m

/-- `QueryResult::filter` from `src/query.rs`. -/
def filter (r : QueryResult) (dict : FunctionDict) (condition : Condition) :
    Outcome QueryResult :=
  match filterLoop r dict condition r.rows with
  | .ok rows => .ok ⟨r.fields, rows⟩
  | .err e => .err e
  | .panicked m => .panicked m

end QueryResult

/-- `IntSize` from `src/field.rs`. -/
inductive IntSize where
  | n8
  | n16
  | n32
  | n64
  | n128
  deriving DecidableEq, Repr

/-- `FieldKind` from `src/field.rs`: the declared column type. -/
inductive FieldKind where
  | integer (size : IntSize) (signed : Bool)
  | real
  | text
  | blob
  | foreignKey (t : TableName)
  deriving DecidableEq, Repr

/-- `TableField` from `src/table.rs`. -/
structure TableField where
  name : FieldName
  kind : FieldKind
  deriving DecidableEq, Repr

/-- `Table` from `src/table.rs`. -/
structure Table where
  name : TableName
  fields : List TableField
  key_field_mask : List Bool
  deriving DecidableEq, Repr

/-- `DataDB` from `src/lib.rs`, restricted to the read-only view the
evaluator consumes: the table list, each table's row snapshot, and the
function registry. -/
structure DataDB where
  tables : List Table
  tableRows : List (TableName × List Row)
  functions : FunctionDict

namespace DataDB

/-- `DataDB::table`: first table with the given name. -/
def table (db : DataDB) (name : TableName) : Option Table :=
  db.tables.find? (fun t => t.name = name)

/-- `DataDB::all_rows`: the row snapshot of a table
(`HashMap` lookup). -/
def all_rows (db : DataDB) (name : TableName) : Option (List Row) :=
  (db.tableRows.find? (fun p => p.1 = name)).map (fun p => p.2)

/-- `DataDB::function_dict`. -/
def function_dict (db : DataDB) : FunctionDict := db.functions

end DataDB

/-- `QueryResult::from_db_table` from `src/query.rs`: qualified schema
from the table's declared fields plus the current row snapshot.  The
Rust code calls `.unwrap()` on `all_rows`, which panics when the rows
entry is missing. -/
def QueryResult.from_db_table (db : DataDB) (table_name : TableName) :
    Outcome QueryResult :=
  match db.table table_name with
  | some t =>
    match db.all_rows table_name with
    | some rows =>
      Outcome.ok ⟨t.fields.map (fun f => (QueryField.new f.name).from_table table_name), rows⟩
    | none => Outcome.panicked "called Option::unwrap() on a None value"
  | none => Outcome.err (QueryError.noSuchTable table_name)

/-- `Query` from `src/query.rs`: the recursive operator tree. -/
inductive Query where
  | empty (fields : List FieldName)
  | table (name : TableName)
  | fromValue (field : TableField) (v : Value)
  | fromFunctionCall (field : TableField) (fc : FunctionCall)
  | union (q1 q2 : Query)
  | intersection (q1 q2 : Query)
  | difference (q1 q2 : Query)
  | distinct (q : Query)
  | project (fields : List QueryField) (q : Query)
  | select (cond : Condition) (q : Query)
  | rename (from_ : QueryField) (to_ : FieldName) (q : Query)

/-- `Query::execute` from `src/query.rs`. -/
def Query.execute (db : DataDB) : Query → Outcome QueryResult
  | Query.empty fields =>
    Outcome.ok ⟨fields.map (fun n => QueryField.new n), []⟩
  | Query.table name => QueryResult.from_db_table db name
  | Query.fromValue field v =>
    Outcome.ok ⟨[QueryField.new field.name], [[v]]⟩
  | Query.fromFunctionCall field fc =>
    match fc.resolve_args (fun _ => Outcome.panicked "FromFunctionCall references a field") with
    | .ok fc' =>
      match fc'.apply db.function_dict with
      | .ok v => .ok ⟨[QueryField.new field.name], [[v]]⟩
      | .err e => .err e
      | .panicked m => .panicked m
    | .err e => .err e
    | .panicked m => .panicked m
  | Query.union q1 q2 => do
    let v1 ← q1.execute db
    let v2 ← q2.execute db
    Outcome.ofExcept (v1.union v2)
  | Query.intersection q1 q2 => do
    let v1 ← q1.execute db
    let v2 ← q2.execute db
    Outcome.ofExcept (v1.intersection v2)
  | Query.difference q1 q2 => do
    let v1 ← q1.execute db
    let v2 ← q2.execute db
    Outcome.ofExcept (v1.difference v2)
  | Query.distinct subquery => do
    let r ← subquery.execute db
    Outcome.ofExcept r.distinct
  | Query.project fields subquery => do
    let r ← subquery.execute db
    Outcome.ofExcept (r.project fields)
  | Query.select condition subquery => do
    let r ← subquery.execute db
    r.filter db.function_dict condition
  | Query.rename from_ to_ subquery => do
    let r ← subquery.execute db
    Outcome.ofExcept (r.rename from_ to_)

/-! ## Spec-side comparison definitions and claim-specific inputs -/

/-- A one-row result whose single value is a `Real` NaN.  Reachable in
the engine, e.g. as the result of `FromValue(x, Real(f64::NAN))`. -/
def nanResult : QueryResult := ⟨[QueryField.new "x"], [[Value.real F64.nan]]⟩

/-- The specification's description of `Distinct` (comparison
definition, written from the spec's words): remove each row that is
value-equal to an *earlier row of the same result*, keeping first
occurrences in order.  The first argument accumulates the rows already
passed over. -/
def specDistinctRows : List Row → List Row → List Row
  | _, [] => []
  | earlier, r :: rest =>
    if containsRow earlier r then specDistinctRows (earlier ++ [r]) rest
    else r :: specDistinctRows (earlier ++ [r]) rest

/-- The arity invariant of a `QueryResult`: every row has exactly
`fields.len()` values. -/
def arityOk (r : QueryResult) : Prop :=
  ∀ row ∈ r.rows, row.length = r.fields.length

/-- The arity invariant of the table store: every row of every table
snapshot has exactly as many values as the table has declared fields. -/
def dbArityOk (db : DataDB) : Prop :=
  ∀ nm t rows, db.table nm = some t → db.all_rows nm = some rows →
    ∀ row ∈ rows, row.length = t.fields.length

mutual

/-- Does an argument contain a `QueryField` reference at any nesting
depth? -/
def Argument.containsField : Argument → Bool
  | .functionCall fc => FunctionCall.containsField fc
  | .value _ => false
  | .queryField _ => true

/-- Any-depth field-reference test over an argument list. -/
def Argument.containsFieldList : List Argument → Bool
  | [] => false
  | a :: rest => Argument.containsField a || Argument.containsFieldList rest

/-- Does a call contain a `QueryField` argument at any nesting depth? -/
def FunctionCall.containsField : FunctionCall → Bool
  | .mk _ args => Argument.containsFieldList args

end

/-! ## The coercion lattice -/

/-- The unification table exactly as the specification states it
(comparison definition, written from the spec's words, to be held
against `ValueKind.more_generic`): identical kinds unify to themselves,
`Unsigned`↔`Signed` to `Signed`, `Unsigned`/`Signed`↔`Real` to `Real`,
and no other pair unifies. -/
def specMoreGeneric (k1 k2 : ValueKind) : Option ValueKind :=
  if k1 = k2 then
    some k1
  else
    match k1, k2 with
    | ValueKind.unsigned, ValueKind.signed => some ValueKind.signed
    | ValueKind.signed, ValueKind.unsigned => some ValueKind.signed
    | ValueKind.unsigned, ValueKind.real => some ValueKind.real
    | ValueKind.real, ValueKind.unsigned => some ValueKind.real
    | ValueKind.signed, ValueKind.real => some ValueKind.real
    | ValueKind.real, ValueKind.signed => some ValueKind.real
    | _, _ => none

/-- C3: unification (`more_generic`) returns the kind itself on equal
kinds, `Signed` for `Unsigned`/`Signed` in either order, `Real` for
`Unsigned`-or-`Signed` with `Real` in either order, and `none` for
every other distinct pair (`Boolean`, `Text`, `Blob` unify only with
themselves). -/
theorem more_generic_matches_spec :
    ∀ k1 k2 : ValueKind, ValueKind.more_generic k1 k2 = specMoreGeneric k1 k2 := by
  intro k1 k2
  cases k1 <;> cases k2 <;> rfl

/-- A successful `cast_to` produces a value of the requested kind. -/
theorem cast_to_kind {v : Value} {k : ValueKind} {w : Value}
    (h : v.cast_to k = Except.ok w) : w.kind = k := by
  cases v <;> cases k <;>
    simp only [Value.cast_to, Value.kind, reduceIte, reduceCtorEq,
      Except.ok.injEq] at h <;>
    (cases h <;> rfl)

/-- When the kinds of two values unify, casting either value to the
unified kind succeeds. -/
theorem cast_to_unify_ok (v1 v2 : Value) (k3 : ValueKind)
    (h : (v1.kind).more_generic v2.kind = some k3) :
    (∃ w, v1.cast_to k3 = Except.ok w) ∧ (∃ w, v2.cast_to k3 = Except.ok w) := by
  cases v1 <;> cases v2 <;>
    simp only [Value.kind, ValueKind.more_generic, reduceIte, reduceCtorEq,
      Option.some.injEq] at h <;>
    (cases h <;> exact ⟨⟨_, rfl⟩, ⟨_, rfl⟩⟩)

/-- Adding two values whose kinds unify always succeeds. -/
theorem binop_add_ok_of_unify (v1 v2 : Value) (k3 : ValueKind)
    (h : (v1.kind).more_generic v2.kind = some k3) :
    ∃ u, v1.binop_add v2 = Except.ok u := by
  obtain ⟨⟨w1, h1⟩, ⟨w2, h2⟩⟩ := cast_to_unify_ok v1 v2 k3 h
  refine ⟨Value.combine k3 w1 w2, ?_⟩
  simp only [Value.binop_add, h, h1, h2]
  rfl

/-- Adding two values of the same kind always succeeds. -/
theorem binop_add_ok_of_same_kind (v1 v2 : Value) (h : v1.kind = v2.kind) :
    ∃ u, v1.binop_add v2 = Except.ok u := by
  refine binop_add_ok_of_unify v1 v2 v2.kind ?_
  rw [h]
  simp [ValueKind.more_generic]

/-- C2: `binop_add(a,b)` fails with `IncompatibleTypes` exactly when the
kinds of `a` and `b` have no unification target; and whenever the kinds
unify to `k3`, casting both operands to `k3` succeeds and combining the
casts never fails with `IncompatibleTypes`. -/
theorem binop_add_incompatible_types_characterization :
    (∀ v1 v2 : Value,
      v1.binop_add v2 = Except.error QueryError.incompatibleTypes ↔
        (v1.kind).more_generic v2.kind = none) ∧
    (∀ (v1 v2 : Value) (k3 : ValueKind),
      (v1.kind).more_generic v2.kind = some k3 →
      ∃ w1 w2, v1.cast_to k3 = Except.ok w1 ∧ v2.cast_to k3 = Except.ok w2 ∧
        w1.binop_add w2 ≠ Except.error QueryError.incompatibleTypes) := by
  constructor
  · intro v1 v2
    constructor
    · intro h
      cases hmg : (v1.kind).more_generic v2.kind with
      | none => rfl
      | some k3 =>
        obtain ⟨u, hu⟩ := binop_add_ok_of_unify v1 v2 k3 hmg
        rw [hu] at h
        cases h
    · intro h
      simp [Value.binop_add, h]
  · intro v1 v2 k3 h
    obtain ⟨⟨w1, h1⟩, ⟨w2, h2⟩⟩ := cast_to_unify_ok v1 v2 k3 h
    refine ⟨w1, w2, h1, h2, ?_⟩
    have hk : w1.kind = w2.kind := by
      rw [cast_to_kind h1, cast_to_kind h2]
    obtain ⟨u, hu⟩ := binop_add_ok_of_same_kind w1 w2 hk
    rw [hu]
    intro hc
    cases hc

/-- Witness for C2 at a concrete pair: `Unsigned 1` and `Signed 2`
unify to `Signed`; both casts succeed and the combination does not fail
with `IncompatibleTypes`. -/
theorem binop_add_incompatible_types_characterization_witness :
    ∃ w1 w2, (Value.unsigned 1).cast_to ValueKind.signed = Except.ok w1 ∧
      (Value.signed 2).cast_to ValueKind.signed = Except.ok w2 ∧
      w1.binop_add w2 ≠ Except.error QueryError.incompatibleTypes :=
  binop_add_incompatible_types_characterization.2
    (Value.unsigned 1) (Value.signed 2) ValueKind.signed (by decide)

/-- Adding two `Unsigned` values reduces to the saturating `u128`
addition. -/
theorem binop_add_unsigned_unsigned (a b : Nat) :
    (Value.unsigned a).binop_add (Value.unsigned b) =
      Except.ok (Value.unsigned (u128SaturatingAdd a b)) := rfl

/-- Adding two `Signed` values reduces to the saturating `i128`
addition. -/
theorem binop_add_signed_signed (a b : Int) :
    (Value.signed a).binop_add (Value.signed b) =
      Except.ok (Value.signed (i128SaturatingAdd a b)) := rfl

/-- C4: same-kind integer addition saturates.  The maximum `u128`
(resp. `i128`) plus any positive in-range value yields the maximum
again; and in general both additions clamp the mathematical sum to the
representable range — the result stays in range (no wrap-around) and the
operation returns `ok` (no panic). -/
theorem binop_add_saturates :
    (∀ v : Nat, 0 < v → v ≤ u128Max →
      (Value.unsigned u128Max).binop_add (Value.unsigned v) =
        Except.ok (Value.unsigned u128Max)) ∧
    (∀ v : Int, 0 < v → v ≤ i128Max →
      (Value.signed i128Max).binop_add (Value.signed v) =
        Except.ok (Value.signed i128Max)) ∧
    (∀ a b : Nat, a ≤ u128Max → b ≤ u128Max →
      (Value.unsigned a).binop_add (Value.unsigned b) =
        Except.ok (Value.unsigned (min (a + b) u128Max)) ∧
      min (a + b) u128Max ≤ u128Max) ∧
    (∀ a b : Int, i128Min ≤ a → a ≤ i128Max → i128Min ≤ b → b ≤ i128Max →
      (Value.signed a).binop_add (Value.signed b) =
        Except.ok (Value.signed (max i128Min (min (a + b) i128Max))) ∧
      i128Min ≤ max i128Min (min (a + b) i128Max) ∧
      max i128Min (min (a + b) i128Max) ≤ i128Max) := by
  have hmm : i128Min ≤ i128Max := by
    rw [i128Min, i128Max]
    norm_num
  refine ⟨?_, ?_, ?_, ?_⟩
  · intro v hv _
    rw [binop_add_unsigned_unsigned, u128SaturatingAdd,
      min_eq_right (Nat.le_add_right _ _)]
  · intro v hv _
    rw [binop_add_signed_signed, i128SaturatingAdd,
      min_eq_right (by linarith), max_eq_right hmm]
  · intro a b _ _
    exact ⟨by rw [binop_add_unsigned_unsigned, u128SaturatingAdd], min_le_right _ _⟩
  · intro a b _ _ _ _
    exact ⟨by rw [binop_add_signed_signed, i128SaturatingAdd],
      le_max_left _ _, max_le hmm (min_le_right _ _)⟩

/-- Witness for C4 at concrete inputs: `u128::MAX + 1` and
`i128::MAX + 1` both clamp to the maximum. -/
theorem binop_add_saturates_witness :
    (Value.unsigned u128Max).binop_add (Value.unsigned 1) =
      Except.ok (Value.unsigned u128Max) ∧
    (Value.signed i128Max).binop_add (Value.signed 1) =
      Except.ok (Value.signed i128Max) :=
  ⟨binop_add_saturates.1 1 (by decide) (by rw [u128Max]; norm_num),
   binop_add_saturates.2.1 1 (by decide) (by rw [i128Max]; norm_num)⟩

/-! ## Union -/

/-- C5: when the field-name lists agree, `Union`'s rows are `a`'s rows
followed by `b`'s rows, order and duplicates preserved; when they
differ, it fails with `DifferentFields` and produces no result. -/
theorem union_concatenates :
    ∀ a b : QueryResult,
      (a.field_names = b.field_names →
        a.union b = Except.ok ⟨a.fields, a.rows ++ b.rows⟩) ∧
      (a.field_names ≠ b.field_names →
        a.union b = Except.error QueryError.differentFields) := by
  intro a b
  constructor
  · intro h
    rw [QueryResult.union, if_neg (by simp [h])]
  · intro h
    rw [QueryResult.union, if_pos h]

/-- Witness for C5 at concrete results: a matching-schema union
concatenates, a mismatched one fails. -/
theorem union_concatenates_witness :
    (QueryResult.mk [QueryField.new "v"] [[Value.signed 1]]).union
        ⟨[QueryField.new "v"], [[Value.signed 2]]⟩ =
      Except.ok ⟨[QueryField.new "v"], [[Value.signed 1], [Value.signed 2]]⟩ ∧
    (QueryResult.mk [QueryField.new "v"] []).union ⟨[QueryField.new "w"], []⟩ =
      Except.error QueryError.differentFields :=
  ⟨(union_concatenates ⟨[QueryField.new "v"], [[Value.signed 1]]⟩
      ⟨[QueryField.new "v"], [[Value.signed 2]]⟩).1 (by decide),
   (union_concatenates ⟨[QueryField.new "v"], []⟩ ⟨[QueryField.new "w"], []⟩).2
      (by decide)⟩

/-! ## Intersection and difference -/

/-- C1 counterexample: because Rust `f64` equality is not reflexive at
NaN, `Vec::contains` never finds a NaN row, so
`Intersection(a,a).rows()` is empty rather than `a.rows()` and
`Difference(a,a).rows()` is `a.rows()` rather than empty. -/
theorem intersection_self_nan_counterexample :
    (nanResult.intersection nanResult).map QueryResult.rows ≠
      Except.ok nanResult.rows ∧
    (nanResult.difference nanResult).map QueryResult.rows ≠
      Except.ok ([] : List Row) := by decide

/-- C1 (amended): with equal field-name lists, `Intersection(a,b)` keeps
exactly the rows of `a` (in order, each occurrence tested independently)
that are `==` to some row of `b`, and `Difference(a,b)` those `==` to no
row of `b`; with different field names both fail `DifferentFields`.
Consequently `Intersection(a,a).rows() == a.rows()` and
`Difference(a,a).rows() == []` for every result `a` whose rows are all
`==` to themselves (no NaN `Real` values), and
`Intersection(a, Empty).rows() == []` for every `a`. -/
theorem intersection_difference_membership :
    ∀ a b : QueryResult,
      (a.field_names = b.field_names →
        a.intersection b = Except.ok
          ⟨a.fields, a.rows.filter (fun row => b.rows.any (fun x => Row.beq x row))⟩ ∧
        a.difference b = Except.ok
          ⟨a.fields, a.rows.filter (fun row => !b.rows.any (fun x => Row.beq x row))⟩) ∧
      (a.field_names ≠ b.field_names →
        a.intersection b = Except.error QueryError.differentFields ∧
        a.difference b = Except.error QueryError.differentFields) ∧
      ((∀ row ∈ a.rows, Row.beq row row = true) →
        (a.intersection a).map QueryResult.rows = Except.ok a.rows ∧
        (a.difference a).map QueryResult.rows = Except.ok ([] : List Row)) ∧
      (∀ names : List FieldName, a.field_names = names →
        (a.intersection ⟨names.map QueryField.new, []⟩).map QueryResult.rows =
          Except.ok ([] : List Row)) := by
  intro a b
  refine ⟨?_, ?_, ?_, ?_⟩
  · intro h
    constructor
    · rw [QueryResult.intersection, if_neg (by simp [h])]
      rfl
    · rw [QueryResult.difference, if_neg (by simp [h])]
      rfl
  · intro h
    exact ⟨by rw [QueryResult.intersection, if_pos h],
      by rw [QueryResult.difference, if_pos h]⟩
  · intro hrefl
    have hcont : ∀ row ∈ a.rows, containsRow a.rows row = true := by
      intro row hm
      exact List.any_eq_true.mpr ⟨row, hm, hrefl row hm⟩
    constructor
    · rw [QueryResult.intersection, if_neg (by simp)]
      simp only [Except.map, QueryResult.rows]
      congr 1
      exact List.filter_eq_self.mpr hcont
    · rw [QueryResult.difference, if_neg (by simp)]
      simp only [Except.map, QueryResult.rows]
      congr 1
      rw [List.filter_eq_nil_iff]
      intro row hm
      simp [hcont row hm]
  · intro names h
    have hnames : (QueryResult.mk (names.map QueryField.new) []).field_names = names := by
      simp only [QueryResult.field_names, List.map_map]
      exact (List.map_congr_left (fun x _ => rfl)).trans (List.map_id _)
    rw [QueryResult.intersection, if_neg (by simp [h, hnames])]
    simp [Except.map, containsRow]

/-- Witness for the amended C1 at a concrete NaN-free result. -/
theorem intersection_difference_membership_witness :
    ((QueryResult.mk [QueryField.new "v"] [[Value.signed 1]]).intersection
        ⟨[QueryField.new "v"], [[Value.signed 1]]⟩).map QueryResult.rows =
      Except.ok [[Value.signed 1]] ∧
    ((QueryResult.mk [QueryField.new "v"] [[Value.signed 1]]).difference
        ⟨[QueryField.new "v"], [[Value.signed 1]]⟩).map QueryResult.rows =
      Except.ok ([] : List Row) :=
  (intersection_difference_membership ⟨[QueryField.new "v"], [[Value.signed 1]]⟩
    ⟨[QueryField.new "v"], [[Value.signed 1]]⟩).2.2.1 (by decide)

/-! ## Distinct -/

theorem outcome_ok_bind {α β : Type} (a : α) (f : α → Outcome β) :
    (Outcome.ok a >>= f) = f a := rfl

theorem outcome_err_bind {α β : Type} (e : QueryError) (f : α → Outcome β) :
    ((Outcome.err e : Outcome α) >>= f) = Outcome.err e := rfl

theorem outcome_panicked_bind {α β : Type} (m : String) (f : α → Outcome β) :
    ((Outcome.panicked m : Outcome α) >>= f) = Outcome.panicked m := rfl

theorem containsRow_append_singleton (l : List Row) (r row : Row) :
    containsRow (l ++ [r]) row = (containsRow l row || Row.beq r row) := by
  simp [containsRow]

/-- The `distinct` loop (membership tested against the rows *kept* so
far) computes the specification's description (membership tested against
all *earlier* rows), as long as the kept rows represent the earlier rows
up to `==`-membership. -/
theorem distinctLoop_eq_spec (rows : List Row) :
    ∀ acc earlier,
      (∀ row, containsRow earlier row = containsRow acc row) →
      QueryResult.distinctLoop acc rows = acc ++ specDistinctRows earlier rows := by
  induction rows with
  | nil =>
    intro acc earlier _
    simp [QueryResult.distinctLoop, specDistinctRows]
  | cons r rest ih =>
    intro acc earlier h
    by_cases hc : containsRow acc r = true
    · rw [QueryResult.distinctLoop, if_pos hc, specDistinctRows,
        if_pos (by rw [h]; exact hc)]
      apply ih
      intro row
      rw [containsRow_append_singleton, h]
      cases hbr : Row.beq r row with
      | false => simp
      | true =>
        obtain ⟨s, hs, hsr⟩ := List.any_eq_true.mp hc
        have hx : containsRow acc row = true :=
          List.any_eq_true.mpr ⟨s, hs, Row.row_beq_trans hsr hbr⟩
        simp [hx]
    · have hc' : containsRow acc r = false := by simpa using hc
      rw [QueryResult.distinctLoop, if_neg hc, specDistinctRows,
        if_neg (by rw [h]; exact hc)]
      rw [ih (acc ++ [r]) (earlier ++ [r]) ?_]
      · simp
      · intro row
        rw [containsRow_append_singleton, containsRow_append_singleton, h]

theorem distinctLoop_pairwise (rows : List Row) :
    ∀ acc, acc.Pairwise (fun a b => Row.beq a b = false) →
      (QueryResult.distinctLoop acc rows).Pairwise (fun a b => Row.beq a b = false) := by
  induction rows with
  | nil =>
    intro acc h
    simpa [QueryResult.distinctLoop] using h
  | cons r rest ih =>
    intro acc h
    by_cases hc : containsRow acc r = true
    · rw [QueryResult.distinctLoop, if_pos hc]
      exact ih acc h
    · have hc' : containsRow acc r = false := by simpa using hc
      rw [QueryResult.distinctLoop, if_neg hc]
      apply ih
      rw [List.pairwise_append]
      refine ⟨h, List.pairwise_singleton _ _, ?_⟩
      intro a ha b hb
      rw [List.mem_singleton] at hb
      subst hb
      have := List.any_eq_false.mp (by simpa [containsRow] using hc') a ha
      simpa using this

theorem distinctLoop_fixed (l : List Row) :
    ∀ acc, l.Pairwise (fun a b => Row.beq a b = false) →
      (∀ x ∈ l, containsRow acc x = false) →
      QueryResult.distinctLoop acc l = acc ++ l := by
  induction l with
  | nil =>
    intro acc _ _
    simp [QueryResult.distinctLoop]
  | cons r rest ih =>
    intro acc hp hacc
    have hc : containsRow acc r = false := hacc r (by simp)
    rw [QueryResult.distinctLoop, if_neg (by simp [hc])]
    rw [ih (acc ++ [r]) hp.of_cons ?_]
    · simp
    · intro x hx
      rw [containsRow_append_singleton, hacc x (by simp [hx]),
        (List.pairwise_cons.mp hp).1 x hx]
      rfl

theorem distinctLoop_idempotent (rows : List Row) :
    QueryResult.distinctLoop [] (QueryResult.distinctLoop [] rows) =
      QueryResult.distinctLoop [] rows := by
  have hp := distinctLoop_pairwise rows [] List.Pairwise.nil
  have := distinctLoop_fixed (QueryResult.distinctLoop [] rows) [] hp
    (by intro x _; simp [containsRow])
  simpa using this

/-- C8: `distinct` keeps exactly the rows not `==`-equal to an earlier
row of the same result, preserving first-occurrence order; hence
`Distinct(Distinct(q))` evaluates to exactly the same result as
`Distinct(q)` for every query and environment. -/
theorem distinct_first_occurrences_idempotent :
    (∀ r : QueryResult,
      r.distinct = Except.ok ⟨r.fields, specDistinctRows [] r.rows⟩) ∧
    (∀ (q : Query) (db : DataDB),
      (Query.distinct (Query.distinct q)).execute db =
        (Query.distinct q).execute db) := by
  have hspec : ∀ rows : List Row,
      QueryResult.distinctLoop [] rows = specDistinctRows [] rows := by
    intro rows
    simpa using distinctLoop_eq_spec rows [] [] (fun _ => rfl)
  constructor
  · intro r
    rw [QueryResult.distinct, hspec]
  · intro q db
    show Query.execute db (Query.distinct (Query.distinct q)) =
      Query.execute db (Query.distinct q)
    simp only [Query.execute]
    cases hq : Query.execute db q with
    | ok r =>
      simp only [outcome_ok_bind, QueryResult.distinct, Outcome.ofExcept]
      rw [distinctLoop_idempotent]
    | err e => simp only [outcome_err_bind]
    | panicked m => simp only [outcome_panicked_bind]

/-! ## Field resolution and projection -/

theorem matchFieldLoop_mem (qf : QueryField) :
    ∀ (fields : List QueryField) (k i : Nat),
      i ∈ QueryResult.matchFieldLoop qf fields k ↔
        ∃ j f, fields.get? j = some f ∧ i = k + j ∧
          f.field = qf.field ∧ (qf.table = none ∨ f.table = qf.table) := by
  intro fields
  induction fields with
  | nil =>
    intro k i
    simp [QueryResult.matchFieldLoop]
  | cons f rest ih =>
    intro k i
    rw [QueryResult.matchFieldLoop]
    by_cases hP : f.field = qf.field ∧ (qf.table = none ∨ f.table = qf.table)
    · rw [if_pos hP]
      simp only [List.mem_cons, ih]
      constructor
      · rintro (rfl | ⟨j, g, hg, rfl, hPg⟩)
        · exact ⟨0, f, rfl, by omega, hP⟩
        · exact ⟨j + 1, g, hg, by omega, hPg⟩
      · rintro ⟨j, g, hg, rfl, hPg⟩
        cases j with
        | zero =>
          left
          omega
        | succ j' =>
          right
          exact ⟨j', g, hg, by omega, hPg⟩
    · rw [if_neg hP, ih]
      constructor
      · rintro ⟨j, g, hg, rfl, hPg⟩
        exact ⟨j + 1, g, hg, by omega, hPg⟩
      · rintro ⟨j, g, hg, rfl, hPg⟩
        cases j with
        | zero =>
          exfalso
          simp only [List.get?_cons_zero, Option.some.injEq] at hg
          exact hP (hg ▸ hPg)
        | succ j' =>
          exact ⟨j', g, hg, by omega, hPg⟩

/-- Membership characterization of `match_field`: a stored field matches
the reference iff the field names are equal and the reference is
unqualified or the qualifiers are equal. -/
theorem match_field_mem (r : QueryResult) (qf : QueryField) (i : Nat) :
    i ∈ r.match_field qf ↔
      ∃ f, r.fields.get? i = some f ∧ f.field = qf.field ∧
        (qf.table = none ∨ f.table = qf.table) := by
  rw [QueryResult.match_field, matchFieldLoop_mem]
  constructor
  · rintro ⟨j, f, h, rfl, hf⟩
    exact ⟨f, by simpa using h, hf⟩
  · rintro ⟨f, h, hf⟩
    exact ⟨i, f, h, (Nat.zero_add i).symm, hf⟩

/-- Matched column indices are in bounds of the schema. -/
theorem match_field_lt_length (r : QueryResult) (qf : QueryField) (i : Nat)
    (h : i ∈ r.match_field qf) : i < r.fields.length := by
  obtain ⟨f, hget, -⟩ := (match_field_mem r qf i).mp h
  exact List.get?_eq_some.mp hget |>.1

theorem projectLoop_ok (r : QueryResult) :
    ∀ (fs accF : List QueryField) (accC : List Nat),
      (∀ f ∈ fs, (r.match_field f).length = 1) →
      QueryResult.projectLoop r fs accF accC =
        Except.ok (accF ++ fs, accC ++ fs.map (fun f => (r.match_field f).headD 0)) := by
  intro fs
  induction fs with
  | nil =>
    intro accF accC _
    simp [QueryResult.projectLoop]
  | cons f rest ih =>
    intro accF accC h
    have h1 : (r.match_field f).length = 1 := h f (by simp)
    have hne : r.match_field f ≠ [] := by
      intro hn
      rw [hn] at h1
      cases h1
    have hnotempty : (r.match_field f).isEmpty = false := by
      simpa [List.isEmpty_iff] using hne
    have hnotgt : ¬((r.match_field f).length > 1) := by omega
    simp only [QueryResult.projectLoop, hnotempty, Bool.false_eq_true,
      if_false, if_neg hnotgt]
    rw [ih (accF ++ [f]) (accC ++ [(r.match_field f).headD 0])
      (fun g hg => h g (by simp [hg]))]
    simp

theorem projectLoop_err (r : QueryResult) :
    ∀ (pre : List QueryField) (f : QueryField) (post accF : List QueryField)
      (accC : List Nat),
      (∀ g ∈ pre, (r.match_field g).length = 1) →
      (r.match_field f).length ≠ 1 →
      QueryResult.projectLoop r (pre ++ f :: post) accF accC =
        (if r.match_field f = [] then Except.error (QueryError.noSuchField f)
         else Except.error (QueryError.ambiguousField f)) := by
  intro pre
  induction pre with
  | nil =>
    intro f post accF accC _ hf
    by_cases hn : r.match_field f = []
    · rw [if_pos hn]
      simp only [List.nil_append, QueryResult.projectLoop, hn]
      simp
    · rw [if_neg hn]
      have hlen : (r.match_field f).length > 1 := by
        have : (r.match_field f).length ≠ 0 := by
          simpa [List.length_eq_zero] using hn
        omega
      have hnotempty : (r.match_field f).isEmpty = false := by
        simpa [List.isEmpty_iff] using hn
      simp only [List.nil_append, QueryResult.projectLoop, hnotempty,
        Bool.false_eq_true, if_false, if_pos hlen]
  | cons g pre' ih =>
    intro f post accF accC hpre hf
    have h1 : (r.match_field g).length = 1 := hpre g (by simp)
    have hne : r.match_field g ≠ [] := by
      intro hn
      rw [hn] at h1
      cases h1
    have hnotempty : (r.match_field g).isEmpty = false := by
      simpa [List.isEmpty_iff] using hne
    have hnotgt : ¬((r.match_field g).length > 1) := by omega
    simp only [List.cons_append, QueryResult.projectLoop, hnotempty,
      Bool.false_eq_true, if_false, if_neg hnotgt]
    exact ih f post _ _ (fun x hx => hpre x (by simp [hx])) hf

/-- C6: `Project` resolves each requested field by name equality with
qualifier narrowing; a requested field with zero matches fails
`NoSuchField`, one with several matches fails `AmbiguousField`, and when
every requested field matches exactly one column the output schema is
the requested fields in order and each output row holds the matched
columns' values of the corresponding input row. -/
theorem project_resolution :
    (∀ (r : QueryResult) (qf : QueryField) (i : Nat),
      i ∈ r.match_field qf ↔
        ∃ f, r.fields.get? i = some f ∧ f.field = qf.field ∧
          (qf.table = none ∨ f.table = qf.table)) ∧
    (∀ (r : QueryResult) (pre : List QueryField) (f : QueryField)
        (post : List QueryField),
      (∀ g ∈ pre, (r.match_field g).length = 1) →
      (r.match_field f = [] →
        r.project (pre ++ f :: post) = Except.error (QueryError.noSuchField f)) ∧
      (1 < (r.match_field f).length →
        r.project (pre ++ f :: post) = Except.error (QueryError.ambiguousField f))) ∧
    (∀ (r : QueryResult) (fs : List QueryField),
      (∀ f ∈ fs, (r.match_field f).length = 1) →
      ∃ pr, r.project fs = Except.ok pr ∧
        pr.fields = fs ∧
        pr.rows = r.rows.map (fun row =>
          row.pick_columns (fs.map (fun f => (r.match_field f).headD 0))) ∧
        (∀ f ∈ fs, (r.match_field f).headD 0 < r.fields.length) ∧
        (∀ row ∈ r.rows, row.length = r.fields.length →
          ∀ (j : Nat) (f : QueryField), fs.get? j = some f →
            (row.pick_columns (fs.map (fun g => (r.match_field g).headD 0))).get? j =
              row.get? ((r.match_field f).headD 0))) := by
  refine ⟨match_field_mem, ?_, ?_⟩
  · intro r pre f post hpre
    constructor
    · intro hnil
      rw [QueryResult.project, projectLoop_err r pre f post [] [] hpre
        (by rw [hnil]; decide), if_pos hnil]
      rfl
    · intro hgt
      rw [QueryResult.project, projectLoop_err r pre f post [] [] hpre
        (by omega), if_neg (by intro hn; rw [hn] at hgt; simp at hgt)]
      rfl
  · intro r fs h
    refine ⟨⟨fs, r.rows.map (fun row =>
      row.pick_columns (fs.map (fun f => (r.match_field f).headD 0)))⟩, ?_, rfl, rfl, ?_, ?_⟩
    · rw [QueryResult.project, projectLoop_ok r fs [] [] h]
      rfl
    · intro f hf
      have h1 : (r.match_field f).length = 1 := h f hf
      have hmem : (r.match_field f).headD 0 ∈ r.match_field f := by
        cases hm : r.match_field f with
        | nil => rw [hm] at h1; cases h1
        | cons a rest => simp
      exact match_field_lt_length r f _ hmem
    · intro row _ harity j f hj
      have h1 : (r.match_field f).length = 1 := h f (List.get?_mem hj)
      have hmem : (r.match_field f).headD 0 ∈ r.match_field f := by
        cases hm : r.match_field f with
        | nil => rw [hm] at h1; cases h1
        | cons a rest => simp
      have hlt : (r.match_field f).headD 0 < row.length := by
        rw [harity]
        exact match_field_lt_length r f _ hmem
      rw [Row.pick_columns, List.get?_map, List.get?_map, hj]
      simp only [Option.map_some']
      rw [List.getD_eq_get?.{0}]
      cases hr : row.get? ((r.match_field f).headD 0) with
      | none =>
        exfalso
        exact absurd (List.get?_eq_none.mp hr) (by omega)
      | some v => rfl

/-- Witness for C6: a concrete result where one requested field matches
exactly one column. -/
theorem project_resolution_witness :
    ∃ pr, (QueryResult.mk [QueryField.new "a"] [[Value.signed 5]]).project
        [QueryField.new "a"] = Except.ok pr ∧
      pr.fields = [QueryField.new "a"] ∧
      pr.rows = [[Value.signed 5]] := by
  obtain ⟨pr, h1, h2, h3, -, -⟩ := project_resolution.2.2
    ⟨[QueryField.new "a"], [[Value.signed 5]]⟩ [QueryField.new "a"] (by decide)
  exact ⟨pr, h1, h2, by rw [h3]; decide⟩

/-! ## Rename -/

theorem one_lt_length_of_two_mem {l : List Nat} {i j : Nat}
    (hi : i ∈ l) (hj : j ∈ l) (hij : i ≠ j) : 1 < l.length := by
  cases l with
  | nil => cases hi
  | cons a rest =>
    cases rest with
    | nil =>
      rw [List.mem_singleton] at hi hj
      exact absurd (hi.trans hj.symm) hij
    | cons b r2 =>
      simp only [List.length_cons]
      omega

/-- C10: `rename` does not check that the new name is unused.  If `from`
resolves to the single column `i` and a distinct column `j` is already
named `tgt`, renaming succeeds and the resulting schema has (at least)
two columns matching the unqualified name `tgt`, so resolving `tgt` in a
subsequent `project` or `rename` fails with `AmbiguousField`. -/
theorem rename_allows_duplicate_names :
    ∀ (r : QueryResult) (from_ : QueryField) (tgt : FieldName) (i j : Nat)
      (g : QueryField),
      r.match_field from_ = [i] →
      r.fields.get? j = some g → g.field = tgt → j ≠ i →
      ∃ r', r.rename from_ tgt = Except.ok r' ∧
        r'.fields = r.fields.set i (QueryField.new tgt) ∧
        r'.rows = r.rows ∧
        i ∈ r'.match_field (QueryField.new tgt) ∧
        j ∈ r'.match_field (QueryField.new tgt) ∧
        1 < (r'.match_field (QueryField.new tgt)).length ∧
        r'.project [QueryField.new tgt] =
          Except.error (QueryError.ambiguousField (QueryField.new tgt)) ∧
        r'.rename (QueryField.new tgt) tgt =
          Except.error (QueryError.ambiguousField (QueryField.new tgt)) := by
  intro r from_ tgt i j g hm hj hgf hij
  have hi_lt : i < r.fields.length :=
    match_field_lt_length r from_ i (by rw [hm]; exact List.mem_singleton.mpr rfl)
  have hmi : i ∈ QueryResult.match_field
      ⟨r.fields.set i (QueryField.new tgt), r.rows⟩ (QueryField.new tgt) :=
    (match_field_mem _ _ _).mpr
      ⟨QueryField.new tgt, List.get?_set_eq_of_lt _ hi_lt, rfl, Or.inl rfl⟩
  have hmj : j ∈ QueryResult.match_field
      ⟨r.fields.set i (QueryField.new tgt), r.rows⟩ (QueryField.new tgt) := by
    apply (match_field_mem _ _ _).mpr
    refine ⟨g, ?_, hgf, Or.inl rfl⟩
    rw [List.get?_set_ne _ _ (fun h => hij h.symm)]
    exact hj
  have h1 : 1 < (QueryResult.match_field
      ⟨r.fields.set i (QueryField.new tgt), r.rows⟩ (QueryField.new tgt)).length :=
    one_lt_length_of_two_mem hmi hmj (fun h => hij h.symm)
  have hne : QueryResult.match_field
      ⟨r.fields.set i (QueryField.new tgt), r.rows⟩ (QueryField.new tgt) ≠ [] := by
    intro hn
    rw [hn] at h1
    simp at h1
  have hnotempty : (QueryResult.match_field
      ⟨r.fields.set i (QueryField.new tgt), r.rows⟩ (QueryField.new tgt)).isEmpty = false := by
    simpa [List.isEmpty_iff] using hne
  refine ⟨⟨r.fields.set i (QueryField.new tgt), r.rows⟩, ?_, rfl, rfl, hmi, hmj, h1,
    ?_, ?_⟩
  · rw [QueryResult.rename, hm]
    rfl
  · have hPL := projectLoop_err
      ⟨r.fields.set i (QueryField.new tgt), r.rows⟩ [] (QueryField.new tgt) [] [] []
      (by intro x hx; cases hx) (by omega)
    rw [List.nil_append] at hPL
    rw [QueryResult.project, hPL, if_neg hne]
    rfl
  · rw [QueryResult.rename]
    simp only [hnotempty, Bool.false_eq_true, if_false, if_pos h1]

/-- Witness for C10: renaming column `a` of `(a, b)` to `b` succeeds and
makes the unqualified reference `b` ambiguous. -/
theorem rename_allows_duplicate_names_witness :
    ∃ r', (QueryResult.mk [QueryField.new "a", QueryField.new "b"]
        [[Value.signed 1, Value.signed 2]]).rename (QueryField.new "a") "b" =
      Except.ok r' ∧
      r'.project [QueryField.new "b"] =
        Except.error (QueryError.ambiguousField (QueryField.new "b")) := by
  obtain ⟨r', h1, -, -, -, -, -, h7, -⟩ := rename_allows_duplicate_names
    ⟨[QueryField.new "a", QueryField.new "b"], [[Value.signed 1, Value.signed 2]]⟩
    (QueryField.new "a") "b" 0 1 (QueryField.new "b")
    (by decide) (by decide) rfl (by decide)
  exact ⟨r', h1, h7⟩

/-! ## The arity invariant -/

theorem field_names_length (r : QueryResult) :
    r.field_names.length = r.fields.length := by
  rw [QueryResult.field_names, List.length_map]

theorem union_arity {a b r' : QueryResult} (ha : arityOk a) (hb : arityOk b)
    (h : a.union b = Except.ok r') : arityOk r' := by
  rw [QueryResult.union] at h
  split at h
  · cases h
  · rename_i hf
    rw [not_not] at hf
    cases h
    intro row hm
    rcases List.mem_append.mp hm with hma | hmb
    · exact ha row hma
    · rw [hb row hmb]
      show b.fields.length = a.fields.length
      rw [← field_names_length a, ← field_names_length b, hf]

theorem intersection_arity {a b r' : QueryResult} (ha : arityOk a)
    (h : a.intersection b = Except.ok r') : arityOk r' := by
  rw [QueryResult.intersection] at h
  split at h
  · cases h
  · cases h
    intro row hm
    exact ha row (List.mem_of_mem_filter hm)

theorem difference_arity {a b r' : QueryResult} (ha : arityOk a)
    (h : a.difference b = Except.ok r') : arityOk r' := by
  rw [QueryResult.difference] at h
  split at h
  · cases h
  · cases h
    intro row hm
    exact ha row (List.mem_of_mem_filter hm)

theorem distinctLoop_subset (rows : List Row) :
    ∀ acc x, x ∈ QueryResult.distinctLoop acc rows → x ∈ acc ∨ x ∈ rows := by
  induction rows with
  | nil =>
    intro acc x h
    rw [QueryResult.distinctLoop] at h
    exact Or.inl h
  | cons r rest ih =>
    intro acc x h
    rw [QueryResult.distinctLoop] at h
    split at h
    · rcases ih acc x h with h' | h'
      · exact Or.inl h'
      · exact Or.inr (by simp [h'])
    · rcases ih (acc ++ [r]) x h with h' | h'
      · rcases List.mem_append.mp h' with h'' | h''
        · exact Or.inl h''
        · exact Or.inr (by simpa using Or.inl (List.mem_singleton.mp h''))
      · exact Or.inr (by simp [h'])

theorem distinct_arity {a r' : QueryResult} (ha : arityOk a)
    (h : a.distinct = Except.ok r') : arityOk r' := by
  rw [QueryResult.distinct] at h
  cases h
  intro row hm
  rcases distinctLoop_subset a.rows [] row hm with h' | h'
  · cases h'
  · exact ha row h'

theorem projectLoop_ok_lengths (r : QueryResult) :
    ∀ (fs accF : List QueryField) (accC : List Nat) rf rc,
      QueryResult.projectLoop r fs accF accC = Except.ok (rf, rc) →
      accF.length = accC.length → rf.length = rc.length := by
  intro fs
  induction fs with
  | nil =>
    intro accF accC rf rc h hl
    rw [QueryResult.projectLoop] at h
    cases h
    exact hl
  | cons f rest ih =>
    intro accF accC rf rc h hl
    rw [QueryResult.projectLoop] at h
    split at h
    · cases h
    · split at h
      · cases h
      · exact ih _ _ _ _ h (by simp [hl])

theorem project_arity {a : QueryResult} {fs : List QueryField} {r' : QueryResult}
    (h : a.project fs = Except.ok r') : arityOk r' := by
  rw [QueryResult.project] at h
  cases hp : QueryResult.projectLoop a fs [] [] with
  | error e =>
    rw [hp] at h
    cases h
  | ok p =>
    obtain ⟨rf, rc⟩ := p
    rw [hp] at h
    cases h
    intro row hm
    obtain ⟨srow, -, rfl⟩ := List.mem_map.mp hm
    rw [Row.pick_columns, List.length_map]
    exact (projectLoop_ok_lengths a fs [] [] rf rc hp rfl).symm

theorem filterLoop_subset (r : QueryResult) (dict : FunctionDict)
    (cond : Condition) :
    ∀ rows out, QueryResult.filterLoop r dict cond rows = Outcome.ok out →
      ∀ x ∈ out, x ∈ rows := by
  intro rows
  induction rows with
  | nil =>
    intro out h x hx
    rw [QueryResult.filterLoop] at h
    cases h
    cases hx
  | cons row rest ih =>
    intro out h x hx
    rw [QueryResult.filterLoop] at h
    cases ht : Condition.test dict (QueryResult.rowResolver r row) cond with
    | ok b =>
      rw [ht] at h
      cases b with
      | true =>
        cases hl : QueryResult.filterLoop r dict cond rest with
        | ok rows' =>
          rw [hl] at h
          cases h
          rcases List.mem_cons.mp hx with rfl | hx'
          · simp
          · exact List.mem_cons_of_mem _ (ih _ hl x hx')
        | err e =>
          rw [hl] at h
          cases h
        | panicked m =>
          rw [hl] at h
          cases h
      | false => exact List.mem_cons_of_mem _ (ih _ h x hx)
    | err e =>
      rw [ht] at h
      cases h
    | panicked m =>
      rw [ht] at h
      cases h

theorem filter_arity {a : QueryResult} {dict : FunctionDict} {cond : Condition}
    {r' : QueryResult} (ha : arityOk a)
    (h : a.filter dict cond = Outcome.ok r') : arityOk r' := by
  rw [QueryResult.filter] at h
  cases hl : QueryResult.filterLoop a dict cond a.rows with
  | ok rows =>
    rw [hl] at h
    cases h
    intro row hm
    exact ha row (filterLoop_subset a dict cond a.rows rows hl row hm)
  | err e =>
    rw [hl] at h
    cases h
  | panicked m =>
    rw [hl] at h
    cases h

theorem rename_arity {a : QueryResult} {f : QueryField} {t : FieldName}
    {r' : QueryResult} (ha : arityOk a)
    (h : a.rename f t = Except.ok r') : arityOk r' := by
  rw [QueryResult.rename] at h
  split at h
  · cases h
  · split at h
    · cases h
    · cases h
      intro row hm
      rw [List.length_set]
      exact ha row hm

theorem execute_arity (db : DataDB) (hdb : dbArityOk db) :
    ∀ (q : Query) (r' : QueryResult),
      Query.execute db q = Outcome.ok r' → arityOk r' := by
  intro q
  induction q with
  | empty fields =>
    intro r' h
    cases h
    intro row hm
    cases hm
  | table name =>
    intro r' h
    rw [Query.execute, QueryResult.from_db_table] at h
    cases ht : db.table name with
    | none =>
      rw [ht] at h
      cases h
    | some t =>
      rw [ht] at h
      cases hr : db.all_rows name with
      | none =>
        rw [hr] at h
        cases h
      | some rows =>
        rw [hr] at h
        cases h
        intro row hm
        rw [List.length_map]
        exact hdb name t rows ht hr row hm
  | fromValue field v =>
    intro r' h
    cases h
    intro row hm
    rw [List.mem_singleton.mp hm]
    rfl
  | fromFunctionCall field fc =>
    intro r' h
    rw [Query.execute] at h
    split at h
    · split at h
      · cases h
        intro row hm
        rw [List.mem_singleton.mp hm]
        rfl
      · cases h
      · cases h
    · cases h
    · cases h
  | union q1 q2 ih1 ih2 =>
    intro r' h
    rw [Query.execute] at h
    cases h1 : Query.execute db q1 with
    | ok v1 =>
      rw [h1, outcome_ok_bind] at h
      cases h2 : Query.execute db q2 with
      | ok v2 =>
        rw [h2, outcome_ok_bind] at h
        cases hu : v1.union v2 with
        | ok u =>
          rw [hu] at h
          cases h
          exact union_arity (ih1 v1 h1) (ih2 v2 h2) hu
        | error e =>
          rw [hu] at h
          cases h
      | err e =>
        rw [h2, outcome_err_bind] at h
        cases h
      | panicked m =>
        rw [h2, outcome_panicked_bind] at h
        cases h
    | err e =>
      rw [h1, outcome_err_bind] at h
      cases h
    | panicked m =>
      rw [h1, outcome_panicked_bind] at h
      cases h
  | intersection q1 q2 ih1 ih2 =>
    intro r' h
    rw [Query.execute] at h
    cases h1 : Query.execute db q1 with
    | ok v1 =>
      rw [h1, outcome_ok_bind] at h
      cases h2 : Query.execute db q2 with
      | ok v2 =>
        rw [h2, outcome_ok_bind] at h
        cases hu : v1.intersection v2 with
        | ok u =>
          rw [hu] at h
          cases h
          exact intersection_arity (ih1 v1 h1) hu
        | error e =>
          rw [hu] at h
          cases h
      | err e =>
        rw [h2, outcome_err_bind] at h
        cases h
      | panicked m =>
        rw [h2, outcome_panicked_bind] at h
        cases h
    | err e =>
      rw [h1, outcome_err_bind] at h
      cases h
    | panicked m =>
      rw [h1, outcome_panicked_bind] at h
      cases h
  | difference q1 q2 ih1 ih2 =>
    intro r' h
    rw [Query.execute] at h
    cases h1 : Query.execute db q1 with
    | ok v1 =>
      rw [h1, outcome_ok_bind] at h
      cases h2 : Query.execute db q2 with
      | ok v2 =>
        rw [h2, outcome_ok_bind] at h
        cases hu : v1.difference v2 with
        | ok u =>
          rw [hu] at h
          cases h
          exact difference_arity (ih1 v1 h1) hu
        | error e =>
          rw [hu] at h
          cases h
      | err e =>
        rw [h2, outcome_err_bind] at h
        cases h
      | panicked m =>
        rw [h2, outcome_panicked_bind] at h
        cases h
    | err e =>
      rw [h1, outcome_err_bind] at h
      cases h
    | panicked m =>
      rw [h1, outcome_panicked_bind] at h
      cases h
  | distinct q ih =>
    intro r' h
    rw [Query.execute] at h
    cases h1 : Query.execute db q with
    | ok v =>
      rw [h1, outcome_ok_bind] at h
      cases hu : v.distinct with
      | ok u =>
        rw [hu] at h
        cases h
        exact distinct_arity (ih v h1) hu
      | error e =>
        rw [hu] at h
        cases h
    | err e =>
      rw [h1, outcome_err_bind] at h
      cases h
    | panicked m =>
      rw [h1, outcome_panicked_bind] at h
      cases h
  | project fs q ih =>
    intro r' h
    rw [Query.execute] at h
    cases h1 : Query.execute db q with
    | ok v =>
      rw [h1, outcome_ok_bind] at h
      cases hu : v.project fs with
      | ok u =>
        rw [hu] at h
        cases h
        exact project_arity hu
      | error e =>
        rw [hu] at h
        cases h
    | err e =>
      rw [h1, outcome_err_bind] at h
      cases h
    | panicked m =>
      rw [h1, outcome_panicked_bind] at h
      cases h
  | select cond q ih =>
    intro r' h
    rw [Query.execute] at h
    cases h1 : Query.execute db q with
    | ok v =>
      rw [h1, outcome_ok_bind] at h
      exact filter_arity (ih v h1) h
    | err e =>
      rw [h1, outcome_err_bind] at h
      cases h
    | panicked m =>
      rw [h1, outcome_panicked_bind] at h
      cases h
  | rename from_ to_ q ih =>
    intro r' h
    rw [Query.execute] at h
    cases h1 : Query.execute db q with
    | ok v =>
      rw [h1, outcome_ok_bind] at h
      cases hu : v.rename from_ to_ with
      | ok u =>
        rw [hu] at h
        cases h
        exact rename_arity (ih v h1) hu
      | error e =>
        rw [hu] at h
        cases h
    | err e =>
      rw [h1, outcome_err_bind] at h
      cases h
    | panicked m =>
      rw [h1, outcome_panicked_bind] at h
      cases h

/-- C9: every operation producing a `QueryResult` preserves the arity
invariant: assuming every input result (and, for `execute`, every table
snapshot) satisfies it, every row of the output has exactly
`fields.len()` values. -/
theorem arity_invariant_preserved :
    (∀ (a b r' : QueryResult), arityOk a → arityOk b →
      a.union b = Except.ok r' → arityOk r') ∧
    (∀ (a b r' : QueryResult), arityOk a →
      a.intersection b = Except.ok r' → arityOk r') ∧
    (∀ (a b r' : QueryResult), arityOk a →
      a.difference b = Except.ok r' → arityOk r') ∧
    (∀ (a r' : QueryResult), arityOk a → a.distinct = Except.ok r' → arityOk r') ∧
    (∀ (a : QueryResult) (fs : List QueryField) (r' : QueryResult),
      a.project fs = Except.ok r' → arityOk r') ∧
    (∀ (a : QueryResult) (dict : FunctionDict) (cond : Condition)
        (r' : QueryResult), arityOk a →
      a.filter dict cond = Outcome.ok r' → arityOk r') ∧
    (∀ (a : QueryResult) (f : QueryField) (t : FieldName) (r' : QueryResult),
      arityOk a → a.rename f t = Except.ok r' → arityOk r') ∧
    (∀ (db : DataDB) (q : Query) (r' : QueryResult), dbArityOk db →
      Query.execute db q = Outcome.ok r' → arityOk r') :=
  ⟨fun _ _ _ ha hb h => union_arity ha hb h,
   fun _ _ _ ha h => intersection_arity ha h,
   fun _ _ _ ha h => difference_arity ha h,
   fun _ _ ha h => distinct_arity ha h,
   fun _ _ _ h => project_arity h,
   fun _ _ _ _ ha h => filter_arity ha h,
   fun _ _ _ _ ha h => rename_arity ha h,
   fun db q r' hdb h => execute_arity db hdb q r' h⟩

/-- Witness for C9: executing a one-value query over the empty store
yields a result satisfying the arity invariant. -/
theorem arity_invariant_preserved_witness :
    arityOk ⟨[QueryField.new "v"], [[Value.signed 1]]⟩ :=
  arity_invariant_preserved.2.2.2.2.2.2.2 ⟨[], [], builtinFunctionDict⟩
    (Query.fromValue ⟨"v", FieldKind.integer IntSize.n32 true⟩ (Value.signed 1))
    ⟨[QueryField.new "v"], [[Value.signed 1]]⟩
    (by
      intro nm t rows h1 h2
      simp [DataDB.table, List.find?] at h1)
    rfl

/-! ## FromFunctionCall and the no-row-context resolver -/

mutual

theorem argument_resolve_panicking (a : Argument) :
    Argument.resolve (fun _ => Outcome.panicked "FromFunctionCall references a field") a =
      (if a.containsField then
        Outcome.panicked "FromFunctionCall references a field"
       else Outcome.ok a) := by
  cases a with
  | functionCall fc =>
    rw [Argument.resolve, functionCall_resolve_panicking fc]
    by_cases h : fc.containsField = true
    · simp [h, Argument.containsField]
    · simp [h, Argument.containsField]
  | value v => simp [Argument.resolve, Argument.containsField]
  | queryField qf => simp [Argument.resolve, Argument.containsField]

theorem argument_resolveList_panicking (l : List Argument) :
    Argument.resolveList (fun _ => Outcome.panicked "FromFunctionCall references a field") l =
      (if Argument.containsFieldList l then
        Outcome.panicked "FromFunctionCall references a field"
       else Outcome.ok l) := by
  cases l with
  | nil => simp [Argument.resolveList, Argument.containsFieldList]
  | cons a rest =>
    rw [Argument.resolveList, argument_resolve_panicking a,
      argument_resolveList_panicking rest]
    by_cases h1 : a.containsField = true
    · simp [h1, Argument.containsFieldList]
    · by_cases h2 : Argument.containsFieldList rest = true
      · simp [h1, h2, Argument.containsFieldList]
      · simp [h1, h2, Argument.containsFieldList]

theorem functionCall_resolve_panicking (fc : FunctionCall) :
    FunctionCall.resolve_args (fun _ => Outcome.panicked "FromFunctionCall references a field") fc =
      (if fc.containsField then
        Outcome.panicked "FromFunctionCall references a field"
       else Outcome.ok fc) := by
  cases fc with
  | mk tgt args =>
    rw [FunctionCall.resolve_args, argument_resolveList_panicking args]
    by_cases h : Argument.containsFieldList args = true
    · simp [h, FunctionCall.containsField]
    · simp [h, FunctionCall.containsField]

end

/-- C7 (against the code as written): when the call passed to
`FromFunctionCall` contains a `QueryField` argument at any nesting
depth, `execute` *panics* (aborting evaluation) instead of returning an
error — the claim's error behavior is the acknowledged intent (the
source carries a `TODO: just return QueryError?`), the panic is the
defect.  When the call contains no field reference, resolution is the
identity and a successful application yields the one-row, one-column
result holding the applied value. -/
theorem from_function_call_field_reference_panics :
    (∀ (db : DataDB) (field : TableField) (fc : FunctionCall),
      fc.containsField = true →
      Query.execute db (Query.fromFunctionCall field fc) =
        Outcome.panicked "FromFunctionCall references a field") ∧
    (∀ (db : DataDB) (field : TableField) (fc : FunctionCall) (v : Value),
      fc.containsField = false →
      fc.apply db.function_dict = Outcome.ok v →
      Query.execute db (Query.fromFunctionCall field fc) =
        Outcome.ok ⟨[QueryField.new field.name], [[v]]⟩) := by
  constructor
  · intro db field fc h
    rw [Query.execute, functionCall_resolve_panicking fc, if_pos h]
  · intro db field fc v h happly
    rw [Query.execute, functionCall_resolve_panicking fc, if_neg (by simp [h])]
    show (match fc.apply db.function_dict with
      | .ok v => Outcome.ok (QueryResult.mk [QueryField.new field.name] [[v]])
      | .err e => Outcome.err e
      | .panicked m => Outcome.panicked m) = _
    rw [happly]

/-- Witness for C7: a concrete call referencing field `x` makes
`FromFunctionCall` evaluation panic. -/
theorem from_function_call_field_reference_panics_witness :
    Query.execute ⟨[], [], builtinFunctionDict⟩
      (Query.fromFunctionCall ⟨"out", FieldKind.text⟩
        (FunctionCall.mk "add" [Argument.queryField (QueryField.new "x")])) =
      Outcome.panicked "FromFunctionCall references a field" :=
  from_function_call_field_reference_panics.1 ⟨[], [], builtinFunctionDict⟩
    ⟨"out", FieldKind.text⟩
    (FunctionCall.mk "add" [Argument.queryField (QueryField.new "x")]) rfl

end SrimDB
